import Mathlib

/-!
Verification of the `process_pickles.py` data-processing pipeline
(`src/data_processing/process_pickles.py`).

Modelling conventions:
* numpy float32 scalars are modelled as rationals (`ℚ`), uint8 pixels as `ℕ`.
* A numpy 2-D array is a list of rows together with its second dimension
  (`cols`): numpy keeps the column count of an array even when a slice
  leaves zero rows, so the column count must travel with the data for the
  shape asserts of the source to be modelled faithfully.
* `np.array` applied to a list of lists fails (no usable second dimension)
  when the list is empty (the result would be 1-D, so a later `shape[1]`
  access raises) or ragged; this is `np_array2` below.
* Filesystem paths are modelled by their component lists (`pickle_path.parts`
  in the source), rendered with `/` separators.
* The `ThreadPoolExecutor` + `as_completed` loop of
  `parallel_process_pickle_files` is modelled by a fold over the input list:
  the list order plays the role of the completion order.  `future.result()`
  re-raises the worker's exception, which the model renders as `Except`.
* External collaborators (`unpickle_data`, `filter_and_concat_robot_state`)
  are input boundaries: an episode arrives as a `Trajectory` whose
  observations already carry the 14-wide concatenated robot state.
-/

/-- An image as stored in an observation: rows of pixels, each pixel a list
of (three) uint8 channel values. -/
abbrev Img : Type := List (List (List ℕ))

/-- Modelled from the spec: `np_isaac_quat_to_rot_6d` lives in
`src.common.geometry`, which is not part of the repository sources here.
The spec describes it as the deterministic map from a unit quaternion to the
first two columns of the equivalent rotation matrix, flattened (first
column, then second column), with no internal normalization.  The quaternion
is in (x, y, z, w) order. -/
def quat_to_rot_6d (q : List ℚ) : List ℚ :=
  let x := q.getD 0 0
  let y := q.getD 1 0
  let z := q.getD 2 0
  let w := q.getD 3 0
  [1 - 2 * (y * y + z * z), 2 * (x * y + z * w), 2 * (x * z - y * w),
   2 * (x * y - z * w), 1 - 2 * (x * x + z * z), 2 * (y * z + x * w)]

/-- Modelled from the spec: the batch form of the quaternion expansion,
applied row-wise (vectorization has no cross-row coupling). -/
def np_isaac_quat_to_rot_6d (qs : List (List ℚ)) : List (List ℚ) :=
  qs.map quat_to_rot_6d

/-- A numpy 2-D float array: rows plus the recorded second dimension. -/
structure NpArray2 where
  rows : List (List ℚ)
  cols : ℕ
deriving DecidableEq

/-- Well-formedness of a 2-D array: every row has the recorded width. -/
def NpArray2.Wf (a : NpArray2) : Prop := ∀ r ∈ a.rows, r.length = a.cols

instance (a : NpArray2) : Decidable a.Wf := by unfold NpArray2.Wf; exact inferInstance

/-- `np.array` on a list of lists of floats: a nonempty rectangular input
yields a 2-D array whose column count is the common row width; an empty
input yields a 1-D array (so any later `shape[1]` access raises) and a
ragged input raises at construction. -/
def np_array2 (xss : List (List ℚ)) : Except String NpArray2 :=
  match xss with
  | [] => .error ("np.array: array has no second dimension")
  | x :: rest =>
    if rest.all (fun r => r.length = x.length) then
      .ok { rows := x :: rest, cols := x.length }
    else
      .error ("np.array: ragged nested sequences")

/-- The slice `a[:-1]`: drop the final row, keeping the column count. -/
def NpArray2.dropLastRow (a : NpArray2) : NpArray2 :=
  { rows := a.rows.dropLast, cols := a.cols }

/-- The slice `a[1:]`: drop the first row, keeping the column count. -/
def NpArray2.dropFirstRow (a : NpArray2) : NpArray2 :=
  { rows := a.rows.drop 1, cols := a.cols }

/-- `np.concatenate` over a list of 2-D arrays along axis 0: needs at least
one array and agreeing trailing dimensions. -/
def concatArr2 (l : List NpArray2) : Except String NpArray2 :=
  match l with
  | [] => .error ("np.concatenate: need at least one array to concatenate")
  | a :: rest =>
    if rest.all (fun b => b.cols = a.cols) then
      .ok { rows := ((a :: rest).map NpArray2.rows).flatten, cols := a.cols }
    else
      .error ("np.concatenate: all the input array dimensions must match")

/-- `np.concatenate` over a list of 1-D arrays (also used for the image
stacks, whose elements are opaque payloads here). -/
def concatList {α : Type} (l : List (List α)) : Except String (List α) :=
  match l with
  | [] => .error ("np.concatenate: need at least one array to concatenate")
  | _ :: _ => .ok l.flatten

/-- The row-wise effect of `action_to_6d_rotation` (source lines 59-70):
position slice `[:3]`, quaternion slice `[3:7]` replaced by its 6D
expansion, gripper slice `[7:]`. -/
def expandActionRow (r : List ℚ) : List ℚ :=
  r.take 3 ++ quat_to_rot_6d ((r.drop 3).take 4) ++ r.drop 7

/-- `action_to_6d_rotation` (source lines 48-72): asserts the action batch
is 8 wide, then re-concatenates position, expanded rotation and gripper
into a 10-wide batch. -/
def action_to_6d_rotation (action : NpArray2) : Except String NpArray2 :=
  if action.cols = 8 then
    .ok { rows := action.rows.map expandActionRow, cols := 10 }
  else
    .error ("Action must be 8D")

/-- The row-wise effect of `proprioceptive_to_6d_rotation` (source lines
91-101): position `[:3]`, quaternion `[3:7]` expanded to 6D, linear
velocity `[7:10]`, angular velocity `[10:13]`, gripper `[13:]`. -/
def expandStateRow (r : List ℚ) : List ℚ :=
  r.take 3 ++ quat_to_rot_6d ((r.drop 3).take 4) ++ (r.drop 7).take 3 ++
    (r.drop 10).take 3 ++ r.drop 13

/-- `proprioceptive_to_6d_rotation` (source lines 75-103): asserts the
robot-state batch is 14 wide and expands it to 16 wide. -/
def proprioceptive_to_6d_rotation (robot_state : NpArray2) : Except String NpArray2 :=
  if robot_state.cols = 14 then
    .ok { rows := robot_state.rows.map expandStateRow, cols := 16 }
  else
    .error ("Robot state must be 14D")

/-- The row-wise effect of `extract_ee_pose_6d` (source lines 113-117):
position `[:3]` and 6D orientation `[3:9]`. -/
def extractPoseRow (r : List ℚ) : List ℚ :=
  r.take 3 ++ (r.drop 3).take 6

/-- `extract_ee_pose_6d` (source lines 106-119): asserts the expanded
robot-state batch is 16 wide and slices out the 9-wide end-effector pose. -/
def extract_ee_pose_6d (robot_state : NpArray2) : Except String NpArray2 :=
  if robot_state.cols = 16 then
    .ok { rows := robot_state.rows.map extractPoseRow, cols := 9 }
  else
    .error ("Robot state must be 16D")

/-- One raw observation record, as consumed by the decoder.  Its
`robot_state` field holds the result of the external
`filter_and_concat_robot_state` call: a flat (14-wide, for valid data)
vector. -/
structure Observation where
  color_image1 : Img
  color_image2 : Img
  robot_state : List ℚ
deriving DecidableEq

/-- One raw episode record as delivered by the external `unpickle_data`. -/
structure Trajectory where
  observations : List Observation
  actions : List (List ℚ)
  rewards : List ℚ
  skills : List ℚ
  furniture : String
  success : Bool
deriving DecidableEq

/-- The output of decoding one episode (the dictionary built at source
lines 157-169).  `action_delta` and `action_pos` model the `action/delta`
and `action/pos` keys. -/
structure ProcessedData where
  robot_state : NpArray2
  color_image1 : List Img
  color_image2 : List Img
  action_delta : NpArray2
  action_pos : NpArray2
  reward : List ℚ
  skill : List ℚ
  episode_length : ℕ
  furniture : String
  success : Bool
  pickle_file : String
deriving DecidableEq

/-- Render a path from its component list, as in `str(pickle_path)`. -/
def pathStr (p : List String) : String := String.intercalate "/" p

/-- The length-mismatch message of the assert at source lines 150-152. -/
def mismatchMsg (pickle_path : List String) (d : ℤ) : String :=
  "Mismatch in " ++ pathStr pickle_path ++ ", lengths differ by " ++ toString d

/-- `process_pickle_file` (source lines 122-171).  The path argument is the
component list `pickle_path.parts`; the trajectory argument stands for
`unpickle_data(pickle_path)`.  Steps, in source order: stack and trim the
two image channels, build and expand the robot-state matrix, trim it to
`robot_state`, expand the delta actions, slice the position actions from
the expanded states without their first row, take rewards and skills
verbatim, assert `len(robot_state) == len(action_delta)`, and derive the
provenance string from the path components after the first `raw`
(`pickle_path.parts.index("raw")` raises when `raw` is absent). -/
def process_pickle_file (pickle_path : List String) (noop_threshold : ℚ)
    (data : Trajectory) : Except String ProcessedData := do
  let obs := data.observations
  let color_image1 := (obs.map Observation.color_image1).dropLast
  let color_image2 := (obs.map Observation.color_image2).dropLast
  let raw_states ← np_array2 (obs.map Observation.robot_state)
  let all_robot_state ← proprioceptive_to_6d_rotation raw_states
  let robot_state := all_robot_state.dropLastRow
  let raw_actions ← np_array2 data.actions
  let action_delta ← action_to_6d_rotation raw_actions
  let action_pos ← extract_ee_pose_6d all_robot_state.dropFirstRow
  let reward := data.rewards
  let skill := data.skills
  if robot_state.rows.length = action_delta.rows.length then
    let pickle_file ←
      if "raw" ∈ pickle_path then
        .ok (String.intercalate "/" (pickle_path.drop (pickle_path.indexOf "raw" + 1)))
      else
        Except.error ("ValueError: tuple.index(x): x not in tuple")
    .ok { robot_state := robot_state, color_image1 := color_image1,
          color_image2 := color_image2, action_delta := action_delta,
          action_pos := action_pos, reward := reward, skill := skill,
          episode_length := action_delta.rows.length,
          furniture := data.furniture, success := data.success,
          pickle_file := pickle_file }
  else
    Except.error (mismatchMsg pickle_path
      ((robot_state.rows.length : ℤ) - (action_delta.rows.length : ℤ)))

/-- The decode phase of `parallel_process_pickle_files` (source lines
194-202): one decode task per input; the list order stands for the
completion order in which `as_completed` yields the futures, and
`future.result()` re-raises the first failure, aborting the loop. -/
def decodeAll (inputs : List (List String × Trajectory)) (noop_threshold : ℚ) :
    Except String (List ProcessedData) :=
  match inputs with
  | [] => .ok []
  | (p, t) :: rest => do
    let d ← process_pickle_file p noop_threshold t
    let ds ← decodeAll rest noop_threshold
    .ok (d :: ds)

/-- One step of the `episode_ends` bookkeeping (source lines 205-212):
append `last_end + episode_length`, with `last_end` the last entry so far
or `0` for the first episode. -/
def appendEnd (ends : List ℕ) (len : ℕ) : List ℕ :=
  ends ++ [ends.getLastD 0 + len]

/-- The `episode_ends` accumulator after folding a list of decoded
episodes in completion order. -/
def buildEnds (results : List ProcessedData) : List ℕ :=
  results.foldl (fun e d => appendEnd e d.episode_length) []

/-- The aggregated output of `parallel_process_pickle_files` (source lines
179-191).  `action_delta`/`action_pos` model the `action/delta` and
`action/pos` keys. -/
structure AggregatedData where
  robot_state : NpArray2
  color_image1 : List Img
  color_image2 : List Img
  action_delta : NpArray2
  action_pos : NpArray2
  reward : List ℚ
  skill : List ℚ
  episode_ends : List ℕ
  furniture : List String
  success : List Bool
  pickle_file : List String
deriving DecidableEq

/-- The fold-and-concatenate phase of `parallel_process_pickle_files`
(source lines 203-226): per-episode values are appended per key in
completion order, `episode_ends` is extended via `appendEnd`, and the
numerical per-timestep channels are finally joined with `np.concatenate`
(which raises on an empty run). -/
def aggregate (results : List ProcessedData) : Except String AggregatedData := do
  let robot_state ← concatArr2 (results.map ProcessedData.robot_state)
  let color_image1 ← concatList (results.map ProcessedData.color_image1)
  let color_image2 ← concatList (results.map ProcessedData.color_image2)
  let action_delta ← concatArr2 (results.map ProcessedData.action_delta)
  let action_pos ← concatArr2 (results.map ProcessedData.action_pos)
  let reward ← concatList (results.map ProcessedData.reward)
  let skill ← concatList (results.map ProcessedData.skill)
  .ok { robot_state := robot_state, color_image1 := color_image1,
        color_image2 := color_image2, action_delta := action_delta,
        action_pos := action_pos, reward := reward, skill := skill,
        episode_ends := buildEnds results,
        furniture := results.map ProcessedData.furniture,
        success := results.map ProcessedData.success,
        pickle_file := results.map ProcessedData.pickle_file }

/-- `parallel_process_pickle_files` (source lines 174-228): decode every
episode (fail-fast) and aggregate the results.  `num_threads` sizes the
worker pool and does not affect the value computed. -/
def parallel_process_pickle_files (inputs : List (List String × Trajectory))
    (noop_threshold : ℚ) (num_threads : ℕ) : Except String AggregatedData := do
  let results ← decodeAll inputs noop_threshold
  aggregate results

/-- The dtypes used by `full_data_shapes` (source lines 323-337). -/
inductive Dtype
  | float32
  | uint8
  | uint32
  | str
deriving DecidableEq

/-- A numcodecs `Blosc` compressor configuration; `shuffle = 2` is
`Blosc.BITSHUFFLE`. -/
structure Compressor where
  cname : String
  clevel : ℕ
  shuffle : ℕ
deriving DecidableEq

/-- The compressor built at source line 28:
`Blosc(cname="zstd", clevel=9, shuffle=Blosc.BITSHUFFLE)`. -/
def imageCompressor : Compressor := { cname := "zstd", clevel := 9, shuffle := 2 }

/-- Substring test, modelling Python's `needle in hay` on strings. -/
def strContains (hay needle : String) : Bool :=
  containsAux hay.data needle.data
where
  containsAux : List Char → List Char → Bool
    | h, n => n.isPrefixOf h || match h with
      | [] => false
      | _ :: rest => containsAux rest n

/-- One dataset of the zarr store, as created by `create_dataset`
(source lines 33-43); `written` records whether its data has been
stored by a later `z[name][:] = value` assignment. -/
structure ZDataset where
  name : String
  shape : List ℕ
  dtype : Dtype
  chunks : List ℕ
  compressor : Option Compressor
  written : Bool
deriving DecidableEq

/-- The zarr store: an attribute block plus the created datasets. -/
structure ZStore where
  attrs : List (String × String)
  datasets : List ZDataset
deriving DecidableEq

/-- `initialize_zarr_store` (source lines 20-45): open the store fresh
(mode `w`), stamp `time_created`, then create every dataset with its full
declared shape, chunked as `(chunksize,) + shape[1:]`, attaching the Blosc
compressor exactly when the dataset name contains `color_image`.  `now`
stands for `datetime.now().astimezone().isoformat()`. -/
def initialize_zarr_store (full_data_shapes : List (String × List ℕ × Dtype))
    (chunksize : ℕ) (now : String) : ZStore :=
  { attrs := [("time_created", now)],
    datasets := full_data_shapes.map (fun s =>
      { name := s.1, shape := s.2.1, dtype := s.2.2,
        chunks := chunksize :: s.2.1.tail,
        compressor := if strContains s.1 "color_image" then some imageCompressor
                      else none,
        written := false }) }

/-- The numpy shape of a stacked image channel `(N, H, W, 3)`, read off the
leading element (the aggregated stack is rectangular whenever the source's
`np.array`/`np.concatenate` calls succeeded). -/
def imgsShape (l : List Img) : List ℕ :=
  l.length :: (l.headD []).length :: ((l.headD []).headD []).length ::
    [(((l.headD []).headD []).headD []).length]

/-- The numpy shape of a 2-D array. -/
def arr2Shape (a : NpArray2) : List ℕ := [a.rows.length, a.cols]

/-- `full_data_shapes` (source lines 323-337): name, full final shape and
dtype of every channel, per-timestep channels first, per-episode channels
last. -/
def full_data_shapes (d : AggregatedData) : List (String × List ℕ × Dtype) :=
  [("robot_state", arr2Shape d.robot_state, Dtype.float32),
   ("color_image1", imgsShape d.color_image1, Dtype.uint8),
   ("color_image2", imgsShape d.color_image2, Dtype.uint8),
   ("action/delta", arr2Shape d.action_delta, Dtype.float32),
   ("action/pos", arr2Shape d.action_pos, Dtype.float32),
   ("skill", [d.skill.length], Dtype.float32),
   ("reward", [d.reward.length], Dtype.float32),
   ("episode_ends", [d.episode_ends.length], Dtype.uint32),
   ("furniture", [d.furniture.length], Dtype.str),
   ("success", [d.success.length], Dtype.uint8),
   ("pickle_file", [d.pickle_file.length], Dtype.str)]

/-- The keys of the aggregated-data dictionary, in insertion order: the
order in which the write loop at source lines 346-349 visits the
channels. -/
def aggChannelNames : List String :=
  ["robot_state", "color_image1", "color_image2", "action/delta",
   "action/pos", "reward", "skill", "episode_ends", "furniture", "success",
   "pickle_file"]

/-- The effect of `z[name][:] = value` on the store model: mark the named
dataset as written. -/
def markWritten (z : ZStore) (name : String) : ZStore :=
  { z with datasets := z.datasets.map (fun d =>
      if d.name = name then { d with written := true } else d) }

/-- The final metadata writes of source lines 352-354: `time_finished`,
`noop_threshold` and `chunksize` are appended to the attribute block.
`now2` stands for the completion timestamp. -/
def addCompletionAttrs (z : ZStore) (now2 : String) (noopT : ℚ) (csize : ℕ) :
    ZStore :=
  { z with attrs := z.attrs ++
      [("time_finished", now2), ("noop_threshold", toString noopT),
       ("chunksize", toString csize)] }

/-- The write loop plus the final metadata writes (source lines 346-354).
`writeOk` is the oracle saying whether the bulk write of a channel
succeeds; an I/O failure raises, leaving the store as written so far, and
the completion attributes are only reached after every channel write
succeeded. -/
def writeLoopAndFinish (z : ZStore) (names : List String)
    (writeOk : String → Bool) (now2 : String) (noopT : ℚ) (csize : ℕ) :
    Except (String × ZStore) ZStore :=
  match names with
  | [] => .ok (addCompletionAttrs z now2 noopT csize)
  | n :: rest =>
    if writeOk n then
      writeLoopAndFinish (markWritten z n) rest writeOk now2 noopT csize
    else
      .error (n, z)

/-- The `__main__` flow of the script (source lines 258-354), from the
overwrite guard on.  `prior` is the store already present at the output
path, if any; argument parsing and path discovery are external.  The guard
at lines 310-313 runs before any processing; on success the pipeline
decodes and aggregates (with `noop_threshold = 0`, `chunksize = 1000`),
creates the store fresh — `zarr.open(..., mode="w")` discards any prior
contents — and runs the write loop and metadata writes. -/
def main_run (prior : Option ZStore) (overwrite : Bool)
    (inputs : List (List String × Trajectory)) (num_threads : ℕ)
    (writeOk : String → Bool) (now now2 : String) : Except String ZStore :=
  if prior.isSome ∧ ¬overwrite then
    .error ("Output path already exists. Use --overwrite to overwrite.")
  else do
    let all_data ← parallel_process_pickle_files inputs 0 num_threads
    let z := initialize_zarr_store (full_data_shapes all_data) 1000 now
    match writeLoopAndFinish z aggChannelNames writeOk now2 0 1000 with
    | .ok z2 => .ok z2
    | .error e => .error ("write failed: " ++ e.1)

/-- Shape predicate for an image: `H` rows of `W` pixels of 3 channels. -/
def ImgShape (H W : ℕ) (i : Img) : Prop :=
  i.length = H ∧ ∀ row ∈ i, row.length = W ∧ ∀ px ∈ row, px.length = 3

instance (H W : ℕ) (i : Img) : Decidable (ImgShape H W i) := by
  unfold ImgShape; exact inferInstance

/-- Mathematical form of the `episode_ends` accumulator: the nonempty
partial sums of a list of episode lengths. -/
def scanSums : List ℕ → List ℕ
  | [] => []
  | l :: ls => l :: (scanSums ls).map (fun x => l + x)

/-- A 14-wide all-zero robot state (its quaternion slice is the zero
vector, which the spec-modelled expansion maps to a fixed 6-vector). -/
def obsZero : Observation :=
  { color_image1 := [], color_image2 := [], robot_state := List.replicate 14 0 }

/-- A well-formed one-action episode: two observations, one 8-wide action,
one reward, one skill. -/
def tGood : Trajectory :=
  { observations := [obsZero, obsZero], actions := [List.replicate 8 0],
    rewards := [0], skills := [0], furniture := "square_table", success := true }

/-- The same episode except that its reward list has three entries while
there is a single action step. -/
def tBadReward : Trajectory :=
  { observations := [obsZero, obsZero], actions := [List.replicate 8 0],
    rewards := [0, 0, 0], skills := [0], furniture := "square_table",
    success := true }

/-- An episode whose action rows are 7 wide, so that
`action_to_6d_rotation` rejects it. -/
def tBadAction : Trajectory :=
  { observations := [obsZero, obsZero], actions := [List.replicate 7 0],
    rewards := [0], skills := [0], furniture := "square_table", success := true }

/-- A pickle path containing a `raw` component. -/
def pGood : List String := ["raw", "scripted", "demo.pkl"]

/-- A pickle path with no `raw` component. -/
def pNoRaw : List String := ["data", "demo.pkl"]

/-- The 16-wide expansion of the all-zero 14-wide robot state. -/
def row16 : List ℚ := [0, 0, 0, 1, 0, 0, 0, 1, 0, 0, 0, 0, 0, 0, 0, 0]

/-- The 10-wide expansion of the all-zero 8-wide action. -/
def row10 : List ℚ := [0, 0, 0, 1, 0, 0, 0, 1, 0, 0]

/-- The 9-wide pose sliced from `row16`. -/
def row9 : List ℚ := [0, 0, 0, 1, 0, 0, 0, 1, 0]

/-- The decoded form of `tGood` read from `pGood`. -/
def pdGood : ProcessedData :=
  { robot_state := { rows := [row16], cols := 16 },
    color_image1 := [[]], color_image2 := [[]],
    action_delta := { rows := [row10], cols := 10 },
    action_pos := { rows := [row9], cols := 9 },
    reward := [0], skill := [0], episode_length := 1,
    furniture := "square_table", success := true,
    pickle_file := "scripted/demo.pkl" }

/-- The decoded form of `tBadReward` read from `pGood`: identical to
`pdGood` except for the three-entry reward channel. -/
def pdBadReward : ProcessedData :=
  { pdGood with reward := [0, 0, 0] }

/-- The aggregation of the single decoded episode `pdGood`. -/
def aggGood : AggregatedData :=
  { robot_state := { rows := [row16], cols := 16 },
    color_image1 := [[]], color_image2 := [[]],
    action_delta := { rows := [row10], cols := 10 },
    action_pos := { rows := [row9], cols := 9 },
    reward := [0], skill := [0], episode_ends := [1],
    furniture := ["square_table"], success := [true],
    pickle_file := ["scripted/demo.pkl"] }

/-- The aggregation of the single decoded episode `pdBadReward`. -/
def aggBadReward : AggregatedData :=
  { aggGood with reward := [0, 0, 0] }

deriving instance DecidableEq for Except

/-- The dataset created for the `color_image1` channel of `aggGood` with
chunk size 4 (its aggregated image stack has shape `[1, 0, 0, 0]`). -/
def dsColorImage1 : ZDataset :=
  { name := "color_image1", shape := [1, 0, 0, 0], dtype := Dtype.uint8,
    chunks := [4, 0, 0, 0], compressor := some imageCompressor,
    written := false }

theorem except_bind_ok {α β : Type} {x : Except String α} {f : α → Except String β}
    {b : β} (h : (x >>= f) = .ok b) : ∃ a, x = .ok a ∧ f a = .ok b := by
  cases x with
  | error e => simp [Bind.bind, Except.bind] at h
  | ok a => exact ⟨a, rfl, by simpa [Bind.bind, Except.bind] using h⟩

theorem np_array2_ok {xss : List (List ℚ)} {w : ℕ} (hne : xss ≠ [])
    (hw : ∀ r ∈ xss, r.length = w) : np_array2 xss = .ok ⟨xss, w⟩ := by
  cases xss with
  | nil => exact absurd rfl hne
  | cons x rest =>
    have hx : x.length = w := hw x (by simp)
    simp [np_array2, hx]
    intro r hr
    exact hw r (List.mem_cons_of_mem _ hr)

theorem np_array2_ok_inv {xss : List (List ℚ)} {a : NpArray2}
    (h : np_array2 xss = .ok a) : a.rows = xss ∧ xss ≠ [] := by
  cases xss with
  | nil => simp [np_array2] at h
  | cons x rest =>
    simp only [np_array2] at h
    split at h
    · cases h
      exact ⟨rfl, by simp⟩
    · exact Except.noConfusion h

theorem prop6d_ok {a : NpArray2} (h : a.cols = 14) :
    proprioceptive_to_6d_rotation a = .ok ⟨a.rows.map expandStateRow, 16⟩ := by
  simp [proprioceptive_to_6d_rotation, h]

theorem prop6d_ok_inv {a b : NpArray2} (h : proprioceptive_to_6d_rotation a = .ok b) :
    a.cols = 14 ∧ b = ⟨a.rows.map expandStateRow, 16⟩ := by
  by_cases hc : a.cols = 14
  · rw [prop6d_ok hc] at h
    exact ⟨hc, (Except.ok.injEq _ _ ▸ h).symm ▸ rfl⟩
  · simp [proprioceptive_to_6d_rotation, hc] at h

theorem action6d_ok {a : NpArray2} (h : a.cols = 8) :
    action_to_6d_rotation a = .ok ⟨a.rows.map expandActionRow, 10⟩ := by
  simp [action_to_6d_rotation, h]

theorem action6d_ok_inv {a b : NpArray2} (h : action_to_6d_rotation a = .ok b) :
    a.cols = 8 ∧ b = ⟨a.rows.map expandActionRow, 10⟩ := by
  by_cases hc : a.cols = 8
  · rw [action6d_ok hc] at h
    exact ⟨hc, (Except.ok.injEq _ _ ▸ h).symm ▸ rfl⟩
  · simp [action_to_6d_rotation, hc] at h

theorem extract_ok {a : NpArray2} (h : a.cols = 16) :
    extract_ee_pose_6d a = .ok ⟨a.rows.map extractPoseRow, 9⟩ := by
  simp [extract_ee_pose_6d, h]

theorem extract_ok_inv {a b : NpArray2} (h : extract_ee_pose_6d a = .ok b) :
    a.cols = 16 ∧ b = ⟨a.rows.map extractPoseRow, 9⟩ := by
  by_cases hc : a.cols = 16
  · rw [extract_ok hc] at h
    exact ⟨hc, (Except.ok.injEq _ _ ▸ h).symm ▸ rfl⟩
  · simp [extract_ee_pose_6d, hc] at h

theorem quat_to_rot_6d_length (q : List ℚ) : (quat_to_rot_6d q).length = 6 := rfl

theorem expandStateRow_length {r : List ℚ} (h : r.length = 14) :
    (expandStateRow r).length = 16 := by
  simp [expandStateRow, quat_to_rot_6d, h]

theorem expandActionRow_length {r : List ℚ} (h : r.length = 8) :
    (expandActionRow r).length = 10 := by
  simp [expandActionRow, quat_to_rot_6d, h]

theorem extractPoseRow_length {r : List ℚ} (h : r.length = 16) :
    (extractPoseRow r).length = 9 := by
  simp [extractPoseRow, h]

theorem extractPoseRow_expandStateRow {s : List ℚ} (h : s.length = 14) :
    extractPoseRow (expandStateRow s) =
      s.take 3 ++ quat_to_rot_6d ((s.drop 3).take 4) := by
  have h3 : (s.take 3).length = 3 := by rw [List.length_take, h]; decide
  unfold expandStateRow extractPoseRow
  simp only [List.append_assoc]
  rw [List.take_left' h3, List.drop_left' h3,
    List.take_left' (quat_to_rot_6d_length _)]

theorem expandActionRow_take3 {r : List ℚ} (h : r.length = 8) :
    (expandActionRow r).take 3 = r.take 3 := by
  have h3 : (r.take 3).length = 3 := by rw [List.length_take, h]; decide
  unfold expandActionRow
  simp only [List.append_assoc]
  rw [List.take_left' h3]

theorem expandActionRow_mid {r : List ℚ} (h : r.length = 8) :
    ((expandActionRow r).drop 3).take 6 = quat_to_rot_6d ((r.drop 3).take 4) := by
  have h3 : (r.take 3).length = 3 := by rw [List.length_take, h]; decide
  unfold expandActionRow
  simp only [List.append_assoc]
  rw [List.drop_left' h3, List.take_left' (quat_to_rot_6d_length _)]

theorem expandActionRow_drop9 {r : List ℚ} (h : r.length = 8) :
    (expandActionRow r).drop 9 = r.drop 7 := by
  have h3 : (r.take 3).length = 3 := by rw [List.length_take, h]; decide
  have h9 : (expandActionRow r).drop 9 = (((expandActionRow r).drop 3).drop 6) := by
    rw [List.drop_drop]
  rw [h9]
  unfold expandActionRow
  simp only [List.append_assoc]
  rw [List.drop_left' h3, List.drop_left' (quat_to_rot_6d_length _)]

theorem process_ok_of_shapes {path : List String} {nt : ℚ} {t : Trajectory}
    (hobs : t.observations ≠ [])
    (hrs : ∀ o ∈ t.observations, o.robot_state.length = 14)
    (hact : t.actions ≠ [])
    (ha : ∀ r ∈ t.actions, r.length = 8)
    (hlen : t.observations.length = t.actions.length + 1)
    (hraw : "raw" ∈ path) :
    process_pickle_file path nt t = .ok
      { robot_state :=
          { rows := ((t.observations.map Observation.robot_state).map
              expandStateRow).dropLast, cols := 16 },
        color_image1 := (t.observations.map Observation.color_image1).dropLast,
        color_image2 := (t.observations.map Observation.color_image2).dropLast,
        action_delta := { rows := t.actions.map expandActionRow, cols := 10 },
        action_pos :=
          { rows := (((t.observations.map Observation.robot_state).map
              expandStateRow).drop 1).map extractPoseRow, cols := 9 },
        reward := t.rewards, skill := t.skills,
        episode_length := t.actions.length,
        furniture := t.furniture, success := t.success,
        pickle_file :=
          String.intercalate "/" (path.drop (path.indexOf "raw" + 1)) } := by
  have hm : ∀ r ∈ t.observations.map Observation.robot_state, r.length = 14 := by
    intro r hr
    obtain ⟨o, ho, rfl⟩ := List.mem_map.mp hr
    exact hrs o ho
  have hmne : t.observations.map Observation.robot_state ≠ [] := by
    simpa using hobs
  have hL : ((t.observations.map Observation.robot_state).map
      expandStateRow).dropLast.length = t.actions.length := by
    simp [hlen]
  simp only [process_pickle_file, Bind.bind, Except.bind,
    np_array2_ok hmne hm, np_array2_ok hact ha,
    proprioceptive_to_6d_rotation, action_to_6d_rotation, extract_ee_pose_6d,
    NpArray2.dropLastRow, NpArray2.dropFirstRow, if_true, reduceIte, hraw,
    List.length_map, hL]

theorem process_ok_facts {path : List String} {nt : ℚ} {t : Trajectory}
    {pd : ProcessedData} (h : process_pickle_file path nt t = .ok pd) :
    pd.robot_state.rows.length = pd.episode_length ∧
    pd.action_delta.rows.length = pd.episode_length ∧
    pd.action_pos.rows.length = pd.episode_length ∧
    pd.color_image1.length = pd.episode_length ∧
    pd.color_image2.length = pd.episode_length ∧
    1 ≤ pd.episode_length := by
  simp only [process_pickle_file] at h
  obtain ⟨raw, h1, h⟩ := except_bind_ok h
  obtain ⟨all, h2, h⟩ := except_bind_ok h
  obtain ⟨rawA, h3, h⟩ := except_bind_ok h
  obtain ⟨ad, h4, h⟩ := except_bind_ok h
  obtain ⟨ap, h5, h⟩ := except_bind_ok h
  obtain ⟨hraw_rows, hraw_ne⟩ := np_array2_ok_inv h1
  obtain ⟨hcols14, hall⟩ := prop6d_ok_inv h2
  obtain ⟨hrawA_rows, hrawA_ne⟩ := np_array2_ok_inv h3
  obtain ⟨hcols8, had⟩ := action6d_ok_inv h4
  obtain ⟨hcols16, hap⟩ := extract_ok_inv h5
  split at h
  case isTrue hcond =>
    split at h
    case isFalse hnoraw => simp [Bind.bind, Except.bind] at h
    case isTrue hinraw =>
    obtain ⟨pf, h6, h⟩ := except_bind_ok h
    injection h with h
    subst h
    subst hall
    subst had
    subst hap
    have hObsLen : raw.rows.length = t.observations.length := by
      rw [hraw_rows]
      simp
    have hActLen : rawA.rows.length = t.actions.length := by rw [hrawA_rows]
    have hc' : raw.rows.length - 1 = (rawA.rows.map expandActionRow).length := by
      simpa [NpArray2.dropLastRow] using hcond
    have hpos : 1 ≤ rawA.rows.length := by
      rw [hrawA_rows]
      exact List.length_pos.mpr hrawA_ne
    refine ⟨hcond, rfl, ?_, ?_, ?_, ?_⟩
    · show ((NpArray2.dropFirstRow _).rows.map extractPoseRow).length = _
      simp only [NpArray2.dropFirstRow, List.length_map, List.length_drop]
      simp only [List.length_map] at hc' ⊢
      omega
    · show ((t.observations.map Observation.color_image1).dropLast).length = _
      simp only [List.length_dropLast, List.length_map] at hc' ⊢
      omega
    · show ((t.observations.map Observation.color_image2).dropLast).length = _
      simp only [List.length_dropLast, List.length_map] at hc' ⊢
      omega
    · show 1 ≤ (rawA.rows.map expandActionRow).length
      simpa using hpos
  case isFalse hcond => exact Except.noConfusion h

theorem decodeAll_ok_length {inputs : List (List String × Trajectory)} {nt : ℚ}
    {results : List ProcessedData} (h : decodeAll inputs nt = .ok results) :
    results.length = inputs.length := by
  induction inputs generalizing results with
  | nil =>
    simp only [decodeAll] at h
    injection h with h
    subst h
    rfl
  | cons pt rest ih =>
    obtain ⟨p, t⟩ := pt
    simp only [decodeAll] at h
    obtain ⟨d, h1, h⟩ := except_bind_ok h
    obtain ⟨ds, h2, h⟩ := except_bind_ok h
    injection h with h
    subst h
    simp [ih h2]

theorem decodeAll_ok_mem {inputs : List (List String × Trajectory)} {nt : ℚ}
    {results : List ProcessedData} (h : decodeAll inputs nt = .ok results) :
    ∀ r ∈ results, ∃ p t, process_pickle_file p nt t = .ok r := by
  induction inputs generalizing results with
  | nil =>
    simp only [decodeAll] at h
    injection h with h
    subst h
    simp
  | cons pt rest ih =>
    obtain ⟨p, t⟩ := pt
    simp only [decodeAll] at h
    obtain ⟨d, h1, h⟩ := except_bind_ok h
    obtain ⟨ds, h2, h⟩ := except_bind_ok h
    injection h with h
    subst h
    intro r hr
    rcases List.mem_cons.mp hr with hr | hr
    · exact ⟨p, t, hr ▸ h1⟩
    · exact ih h2 r hr

theorem decodeAll_ok_forall {inputs : List (List String × Trajectory)} {nt : ℚ}
    {results : List ProcessedData} (h : decodeAll inputs nt = .ok results) :
    ∀ pt ∈ inputs, ∃ r, process_pickle_file pt.1 nt pt.2 = .ok r := by
  induction inputs generalizing results with
  | nil => simp
  | cons pt rest ih =>
    obtain ⟨p, t⟩ := pt
    simp only [decodeAll] at h
    obtain ⟨d, h1, h⟩ := except_bind_ok h
    obtain ⟨ds, h2, h⟩ := except_bind_ok h
    intro q hq
    rcases List.mem_cons.mp hq with hq | hq
    · exact ⟨d, hq ▸ h1⟩
    · exact ih h2 q hq

theorem decodeAll_append_error {pre post : List (List String × Trajectory)}
    {p : List String} {t : Trajectory} {nt : ℚ} {e : String}
    (hpre : ∀ pt ∈ pre, ∃ r, process_pickle_file pt.1 nt pt.2 = .ok r)
    (hfail : process_pickle_file p nt t = .error e) :
    decodeAll (pre ++ (p, t) :: post) nt = .error e := by
  induction pre with
  | nil =>
    simp only [List.nil_append, decodeAll, hfail]
    rfl
  | cons q rest ih =>
    obtain ⟨r, hr⟩ := hpre q (by simp)
    obtain ⟨pq, tq⟩ := q
    simp only [List.cons_append, decodeAll, hr]
    have hrec := ih (fun x hx => hpre x (List.mem_cons_of_mem _ hx))
    simp [Bind.bind, Except.bind, hrec]

theorem scanSums_length (ls : List ℕ) : (scanSums ls).length = ls.length := by
  induction ls with
  | nil => rfl
  | cons l ls ih => simp [scanSums, ih]

theorem getLastD_appendEnd (acc : List ℕ) (l : ℕ) :
    (appendEnd acc l).getLastD 0 = acc.getLastD 0 + l := by
  simp [appendEnd]

theorem foldl_appendEnd (ls : List ℕ) : ∀ acc : List ℕ,
    ls.foldl appendEnd acc =
      acc ++ (scanSums ls).map (fun x => acc.getLastD 0 + x) := by
  induction ls with
  | nil => intro acc; simp [scanSums]
  | cons l ls ih =>
    intro acc
    rw [List.foldl_cons, ih, getLastD_appendEnd]
    have hfun : (fun x => acc.getLastD 0 + l + x) =
        (fun x : ℕ => acc.getLastD 0 + (l + x)) := by
      funext x
      omega
    simp [appendEnd, scanSums, List.map_map, Function.comp, hfun]

theorem buildEnds_eq (results : List ProcessedData) :
    buildEnds results = scanSums (results.map ProcessedData.episode_length) := by
  unfold buildEnds
  rw [← List.foldl_map, foldl_appendEnd]
  simp

theorem scanSums_chain {ls : List ℕ} (h : ∀ x ∈ ls, 1 ≤ x) :
    List.Chain' (· < ·) (scanSums ls) := by
  induction ls with
  | nil => simp [scanSums]
  | cons l ls ih =>
    rw [scanSums, List.chain'_cons']
    constructor
    · intro y hy
      rw [List.head?_map] at hy
      cases hls : (scanSums ls).head? with
      | none => rw [hls] at hy; simp at hy
      | some z =>
        rw [hls] at hy
        simp at hy
        have hz : 1 ≤ z := by
          cases ls with
          | nil => simp [scanSums] at hls
          | cons a tl =>
            rw [scanSums] at hls
            simp only [List.head?_cons, Option.some.injEq] at hls
            subst hls
            exact h a (by simp)
        omega
    · rw [List.chain'_map]
      exact (ih (fun x hx => h x (List.mem_cons_of_mem _ hx))).imp
        (fun hab => by omega)

theorem scanSums_getD {ls : List ℕ} {i : ℕ} (h : i < ls.length) :
    (scanSums ls).getD i 0 = (ls.take (i + 1)).sum := by
  induction ls generalizing i with
  | nil => simp at h
  | cons l ls ih =>
    cases i with
    | zero => simp [scanSums]
    | succ i =>
      rw [scanSums]
      have hi : i < ls.length := by
        simpa using Nat.lt_of_succ_lt_succ h
      have hi' : i < (scanSums ls).length := by
        rw [scanSums_length]
        exact hi
      rw [List.getD_cons_succ, List.getD_eq_getElem?_getD, List.getElem?_map,
        List.getElem?_eq_getElem hi']
      simp only [Option.map_some', Option.getD_some]
      rw [← List.getD_eq_getElem (scanSums ls) 0 hi', ih hi]
      simp [List.sum_cons]

theorem scanSums_getLastD {ls : List ℕ} (h : ls ≠ []) :
    (scanSums ls).getLastD 0 = ls.sum := by
  have hlen : 1 ≤ ls.length := List.length_pos.mpr h
  have hne : scanSums ls ≠ [] := by
    intro hc
    have := scanSums_length ls
    rw [hc] at this
    simp at this
    omega
  have hidx : ls.length - 1 < ls.length := by omega
  have hgl : (scanSums ls).getLastD 0 =
      (scanSums ls).getD ((scanSums ls).length - 1) 0 := by
    rw [List.getLastD_eq_getLast?, List.getLast?_eq_getElem?,
      List.getD_eq_getElem?_getD]
  have hlast : ls.length - 1 + 1 = ls.length := by omega
  rw [hgl, scanSums_length, scanSums_getD hidx, hlast, List.take_length]

theorem concatArr2_ok_inv {l : List NpArray2} {a : NpArray2}
    (h : concatArr2 l = .ok a) :
    a.rows = (l.map NpArray2.rows).flatten ∧ l ≠ [] := by
  cases l with
  | nil => exact Except.noConfusion h
  | cons x rest =>
    simp only [concatArr2] at h
    split at h
    · injection h with h
      subst h
      exact ⟨rfl, by simp⟩
    · exact Except.noConfusion h

theorem concatList_ok_inv {α : Type} {l : List (List α)} {x : List α}
    (h : concatList l = .ok x) : x = l.flatten ∧ l ≠ [] := by
  cases l with
  | nil => exact Except.noConfusion h
  | cons y rest =>
    simp only [concatList] at h
    injection h with h
    subst h
    exact ⟨rfl, by simp⟩

theorem aggregate_ok_inv {results : List ProcessedData} {agg : AggregatedData}
    (h : aggregate results = .ok agg) :
    agg.robot_state.rows =
      ((results.map ProcessedData.robot_state).map NpArray2.rows).flatten ∧
    agg.color_image1 = (results.map ProcessedData.color_image1).flatten ∧
    agg.color_image2 = (results.map ProcessedData.color_image2).flatten ∧
    agg.action_delta.rows =
      ((results.map ProcessedData.action_delta).map NpArray2.rows).flatten ∧
    agg.action_pos.rows =
      ((results.map ProcessedData.action_pos).map NpArray2.rows).flatten ∧
    agg.reward = (results.map ProcessedData.reward).flatten ∧
    agg.skill = (results.map ProcessedData.skill).flatten ∧
    agg.episode_ends = buildEnds results ∧
    agg.furniture = results.map ProcessedData.furniture ∧
    agg.success = results.map ProcessedData.success ∧
    agg.pickle_file = results.map ProcessedData.pickle_file ∧
    results ≠ [] := by
  simp only [aggregate] at h
  obtain ⟨c1, h1, h⟩ := except_bind_ok h
  obtain ⟨c2, h2, h⟩ := except_bind_ok h
  obtain ⟨c3, h3, h⟩ := except_bind_ok h
  obtain ⟨c4, h4, h⟩ := except_bind_ok h
  obtain ⟨c5, h5, h⟩ := except_bind_ok h
  obtain ⟨c6, h6, h⟩ := except_bind_ok h
  obtain ⟨c7, h7, h⟩ := except_bind_ok h
  injection h with h
  subst h
  obtain ⟨e1, hne⟩ := concatArr2_ok_inv h1
  obtain ⟨e2, -⟩ := concatList_ok_inv h2
  obtain ⟨e3, -⟩ := concatList_ok_inv h3
  obtain ⟨e4, -⟩ := concatArr2_ok_inv h4
  obtain ⟨e5, -⟩ := concatArr2_ok_inv h5
  obtain ⟨e6, -⟩ := concatList_ok_inv h6
  obtain ⟨e7, -⟩ := concatList_ok_inv h7
  have hrne : results ≠ [] := by
    intro hc
    subst hc
    simp at hne
  exact ⟨e1, e2, e3, e4, e5, e6, e7, rfl, rfl, rfl, rfl, hrne⟩

theorem parallel_ok_inv {inputs : List (List String × Trajectory)} {nt : ℚ}
    {k : ℕ} {agg : AggregatedData}
    (h : parallel_process_pickle_files inputs nt k = .ok agg) :
    ∃ results, decodeAll inputs nt = .ok results ∧ aggregate results = .ok agg := by
  simp only [parallel_process_pickle_files] at h
  exact except_bind_ok h

theorem markWritten_attrs (z : ZStore) (name : String) :
    (markWritten z name).attrs = z.attrs := rfl

theorem writeLoop_error_attrs {z : ZStore} {names : List String}
    {writeOk : String → Bool} {now2 : String} {noopT : ℚ} {csize : ℕ}
    {n : String} {z' : ZStore}
    (h : writeLoopAndFinish z names writeOk now2 noopT csize = .error (n, z')) :
    z'.attrs = z.attrs := by
  induction names generalizing z with
  | nil => exact Except.noConfusion h
  | cons m rest ih =>
    simp only [writeLoopAndFinish] at h
    split at h
    · exact (ih h).trans (markWritten_attrs z m)
    · injection h with h
      rw [show z' = (n, z').2 from rfl, ← h]

theorem writeLoop_ok_attrs {z : ZStore} {names : List String}
    {writeOk : String → Bool} {now2 : String} {noopT : ℚ} {csize : ℕ}
    {z' : ZStore}
    (h : writeLoopAndFinish z names writeOk now2 noopT csize = .ok z') :
    z'.attrs = z.attrs ++
      [("time_finished", now2), ("noop_threshold", toString noopT),
       ("chunksize", toString csize)] := by
  induction names generalizing z with
  | nil =>
    simp only [writeLoopAndFinish] at h
    injection h with h
    subst h
    rfl
  | cons m rest ih =>
    simp only [writeLoopAndFinish] at h
    split at h
    · exact (ih h).trans (by rw [markWritten_attrs])
    · exact Except.noConfusion h

theorem markWritten_pres {z : ZStore} {nm : String}
    (hp : ∀ d ∈ z.datasets, d.name = nm → d.written = true) (m : String) :
    ∀ d ∈ (markWritten z m).datasets, d.name = nm → d.written = true := by
  intro d hd hnm
  simp only [markWritten, List.mem_map] at hd
  obtain ⟨d0, hd0, rfl⟩ := hd
  by_cases hc : d0.name = m
  · simp [hc]
  · simp only [hc, if_false]
    exact hp d0 hd0 (by simpa [hc] using hnm)

theorem markWritten_self (z : ZStore) (nm : String) :
    ∀ d ∈ (markWritten z nm).datasets, d.name = nm → d.written = true := by
  intro d hd hnm
  simp only [markWritten, List.mem_map] at hd
  obtain ⟨d0, hd0, rfl⟩ := hd
  by_cases hc : d0.name = nm
  · simp [hc]
  · simp only [hc, if_false] at hnm ⊢

theorem writeLoop_ok_pres {z : ZStore} {names : List String}
    {writeOk : String → Bool} {now2 : String} {noopT : ℚ} {csize : ℕ}
    {z' : ZStore} {nm : String}
    (h : writeLoopAndFinish z names writeOk now2 noopT csize = .ok z')
    (hp : ∀ d ∈ z.datasets, d.name = nm → d.written = true) :
    ∀ d ∈ z'.datasets, d.name = nm → d.written = true := by
  induction names generalizing z with
  | nil =>
    simp only [writeLoopAndFinish] at h
    injection h with h
    subst h
    exact hp
  | cons m rest ih =>
    simp only [writeLoopAndFinish] at h
    split at h
    · exact ih h (markWritten_pres hp m)
    · exact Except.noConfusion h

theorem writeLoop_ok_written {z : ZStore} {names : List String}
    {writeOk : String → Bool} {now2 : String} {noopT : ℚ} {csize : ℕ}
    {z' : ZStore}
    (h : writeLoopAndFinish z names writeOk now2 noopT csize = .ok z') :
    ∀ nm ∈ names, ∀ d ∈ z'.datasets, d.name = nm → d.written = true := by
  induction names generalizing z with
  | nil => simp
  | cons m rest ih =>
    intro nm hnm
    simp only [writeLoopAndFinish] at h
    split at h
    case isTrue hok =>
      rcases List.mem_cons.mp hnm with hnm | hnm
      · subst hnm
        exact writeLoop_ok_pres h (markWritten_self z nm)
      · exact ih h nm hnm
    case isFalse hok => exact Except.noConfusion h

/-- Claim C6: for every 14-wide state batch, applying `extract_ee_pose_6d`
to the 16-wide result of `proprioceptive_to_6d_rotation` yields 9-wide rows
whose first 3 entries are the position slice `s[0:3]` and whose remaining 6
entries are the 6D rotation expansion of the quaternion slice `s[3:7]` used
to build the expanded state; and `extract_ee_pose_6d` fails with the
shape-mismatch error on any array whose width is not 16. -/
theorem claim_C6_pose_roundtrip :
    (∀ a : NpArray2, a.Wf → a.cols = 14 →
      ∃ p, (proprioceptive_to_6d_rotation a >>= extract_ee_pose_6d) = .ok p ∧
        p.cols = 9 ∧
        p.rows = a.rows.map
          (fun s => s.take 3 ++ quat_to_rot_6d ((s.drop 3).take 4)) ∧
        ∀ r ∈ p.rows, r.length = 9) ∧
    (∀ b : NpArray2, b.cols ≠ 16 →
      extract_ee_pose_6d b = .error ("Robot state must be 16D")) := by
  constructor
  · intro a hwf hc
    refine ⟨⟨(a.rows.map expandStateRow).map extractPoseRow, 9⟩, ?_, rfl, ?_, ?_⟩
    · rw [prop6d_ok hc]
      simp only [Bind.bind, Except.bind]
      exact extract_ok rfl
    · rw [List.map_map]
      apply List.map_congr_left
      intro s hs
      have h14 : s.length = 14 := by rw [hwf s hs, hc]
      exact extractPoseRow_expandStateRow h14
    · intro r hr
      simp only [NpArray2.rows] at hr
      obtain ⟨s', hs', rfl⟩ := List.mem_map.mp hr
      obtain ⟨s, hs, rfl⟩ := List.mem_map.mp hs'
      have h14 : s.length = 14 := by rw [hwf s hs, hc]
      exact extractPoseRow_length (expandStateRow_length h14)
  · intro b hb
    simp [extract_ee_pose_6d, hb]

/-- Witness for claim C6 at the one-row all-zero 14-wide state batch. -/
theorem claim_C6_witness :
    (⟨[List.replicate 14 (0 : ℚ)], 14⟩ : NpArray2).Wf ∧
    (∃ p, (proprioceptive_to_6d_rotation ⟨[List.replicate 14 (0 : ℚ)], 14⟩ >>=
        extract_ee_pose_6d) = .ok p ∧
      p.cols = 9 ∧
      p.rows = (⟨[List.replicate 14 (0 : ℚ)], 14⟩ : NpArray2).rows.map
        (fun s => s.take 3 ++ quat_to_rot_6d ((s.drop 3).take 4)) ∧
      ∀ r ∈ p.rows, r.length = 9) :=
  ⟨by decide, claim_C6_pose_roundtrip.1 _ (by decide) rfl⟩

/-- Claim C7: for every 8-wide action batch, `action_to_6d_rotation`
returns 10-wide rows whose first 3 entries are the unchanged position, whose
middle 6 entries are the 6D expansion of the quaternion slice `r[3:7]`, and
whose trailing entry is the unchanged gripper slice `r[7:]`; it fails with
the shape-mismatch error whenever the input width is not 8. -/
theorem claim_C7_expand_action :
    (∀ a : NpArray2, a.Wf → a.cols = 8 →
      ∃ b, action_to_6d_rotation a = .ok b ∧ b.cols = 10 ∧
        b.rows = a.rows.map expandActionRow ∧
        ∀ r ∈ a.rows, (expandActionRow r).length = 10 ∧
          (expandActionRow r).take 3 = r.take 3 ∧
          ((expandActionRow r).drop 3).take 6 =
            quat_to_rot_6d ((r.drop 3).take 4) ∧
          (expandActionRow r).drop 9 = r.drop 7) ∧
    (∀ a : NpArray2, a.cols ≠ 8 →
      action_to_6d_rotation a = .error ("Action must be 8D")) := by
  constructor
  · intro a hwf hc
    refine ⟨_, action6d_ok hc, rfl, rfl, ?_⟩
    intro r hr
    have h8 : r.length = 8 := by rw [hwf r hr, hc]
    exact ⟨expandActionRow_length h8, expandActionRow_take3 h8,
      expandActionRow_mid h8, expandActionRow_drop9 h8⟩
  · intro a ha
    simp [action_to_6d_rotation, ha]

/-- Witness for claim C7 at the one-row all-zero 8-wide action batch. -/
theorem claim_C7_witness :
    (⟨[List.replicate 8 (0 : ℚ)], 8⟩ : NpArray2).Wf ∧
    (∃ b, action_to_6d_rotation ⟨[List.replicate 8 (0 : ℚ)], 8⟩ = .ok b ∧
      b.cols = 10 ∧
      b.rows = (⟨[List.replicate 8 (0 : ℚ)], 8⟩ : NpArray2).rows.map
        expandActionRow ∧
      ∀ r ∈ (⟨[List.replicate 8 (0 : ℚ)], 8⟩ : NpArray2).rows,
        (expandActionRow r).length = 10 ∧
        (expandActionRow r).take 3 = r.take 3 ∧
        ((expandActionRow r).drop 3).take 6 =
          quat_to_rot_6d ((r.drop 3).take 4) ∧
        (expandActionRow r).drop 9 = r.drop 7) :=
  ⟨by decide, claim_C7_expand_action.1 _ (by decide) rfl⟩

/-- Claim C3: for a raw episode with `N+1` observations carrying 14-wide
robot states, `N` 8-wide actions, and `H` by `W` images, decoding succeeds
and produces: `robot_state` equal to the 16D-expanded observation states
with the final timestep excluded, shape `[N,16]`; `action/pos` equal to
`extract_ee_pose_6d` of the expanded states with the first timestep
excluded, shape `[N,9]`; `action/delta` of shape `[N,10]`; and both image
channels trimmed to exclude the final timestep, shape `[N,H,W,3]`. -/
theorem claim_C3_decode_shapes {path : List String} {nt : ℚ} {t : Trajectory}
    {N H W : ℕ}
    (hobs : t.observations.length = N + 1)
    (hact : t.actions.length = N)
    (hN : 1 ≤ N)
    (hrs : ∀ o ∈ t.observations, o.robot_state.length = 14)
    (ha : ∀ r ∈ t.actions, r.length = 8)
    (him1 : ∀ o ∈ t.observations, ImgShape H W o.color_image1)
    (him2 : ∀ o ∈ t.observations, ImgShape H W o.color_image2)
    (hraw : "raw" ∈ path) :
    ∃ pd, process_pickle_file path nt t = .ok pd ∧
      pd.robot_state.rows =
        ((t.observations.map Observation.robot_state).map expandStateRow).dropLast ∧
      pd.robot_state.rows.length = N ∧ pd.robot_state.cols = 16 ∧
      (∀ r ∈ pd.robot_state.rows, r.length = 16) ∧
      pd.action_delta.rows.length = N ∧ pd.action_delta.cols = 10 ∧
      (∀ r ∈ pd.action_delta.rows, r.length = 10) ∧
      pd.action_pos.rows =
        (((t.observations.map Observation.robot_state).map
          expandStateRow).drop 1).map extractPoseRow ∧
      pd.action_pos.rows.length = N ∧ pd.action_pos.cols = 9 ∧
      (∀ r ∈ pd.action_pos.rows, r.length = 9) ∧
      pd.color_image1 = (t.observations.map Observation.color_image1).dropLast ∧
      pd.color_image2 = (t.observations.map Observation.color_image2).dropLast ∧
      pd.color_image1.length = N ∧ pd.color_image2.length = N ∧
      (∀ i ∈ pd.color_image1, ImgShape H W i) ∧
      (∀ i ∈ pd.color_image2, ImgShape H W i) := by
  have hobs_ne : t.observations ≠ [] := by
    intro hc
    rw [hc] at hobs
    simp at hobs
  have hact_ne : t.actions ≠ [] := by
    intro hc
    rw [hc] at hact
    simp at hact
    omega
  have hlen : t.observations.length = t.actions.length + 1 := by rw [hobs, hact]
  refine ⟨_, process_ok_of_shapes hobs_ne hrs hact_ne ha hlen hraw,
    rfl, ?_, rfl, ?_, ?_, rfl, ?_, rfl, ?_, rfl, ?_, rfl, rfl, ?_, ?_, ?_, ?_⟩
  · simp [hobs]
  · intro r hr
    have hr' := List.dropLast_subset _ hr
    obtain ⟨s', hs', rfl⟩ := List.mem_map.mp hr'
    obtain ⟨o, ho, rfl⟩ := List.mem_map.mp hs'
    exact expandStateRow_length (hrs o ho)
  · simp [hact]
  · intro r hr
    obtain ⟨s, hs, rfl⟩ := List.mem_map.mp hr
    exact expandActionRow_length (ha s hs)
  · simp [hobs]
  · intro r hr
    obtain ⟨s', hs', rfl⟩ := List.mem_map.mp hr
    have hs'' := List.drop_subset _ _ hs'
    obtain ⟨s, hs, rfl⟩ := List.mem_map.mp hs''
    obtain ⟨o, ho, rfl⟩ := List.mem_map.mp hs
    exact extractPoseRow_length (expandStateRow_length (hrs o ho))
  · simp [hobs]
  · simp [hobs]
  · intro i hi
    have hi' := List.dropLast_subset _ hi
    obtain ⟨o, ho, rfl⟩ := List.mem_map.mp hi'
    exact him1 o ho
  · intro i hi
    have hi' := List.dropLast_subset _ hi
    obtain ⟨o, ho, rfl⟩ := List.mem_map.mp hi'
    exact him2 o ho

/-- Witness for claim C3 at the concrete episode `tGood` (two observations,
one action, empty images) read from the path `raw/scripted/demo.pkl`. -/
theorem claim_C3_witness :
    tGood.observations.length = 1 + 1 ∧ tGood.actions.length = 1 ∧
    (∀ o ∈ tGood.observations, o.robot_state.length = 14) ∧
    (∀ r ∈ tGood.actions, r.length = 8) ∧
    (∀ o ∈ tGood.observations, ImgShape 0 0 o.color_image1) ∧
    (∀ o ∈ tGood.observations, ImgShape 0 0 o.color_image2) ∧
    "raw" ∈ pGood ∧
    (∃ pd, process_pickle_file pGood 0 tGood = .ok pd ∧
      pd.robot_state.rows =
        ((tGood.observations.map Observation.robot_state).map
          expandStateRow).dropLast ∧
      pd.robot_state.rows.length = 1 ∧ pd.robot_state.cols = 16 ∧
      (∀ r ∈ pd.robot_state.rows, r.length = 16) ∧
      pd.action_delta.rows.length = 1 ∧ pd.action_delta.cols = 10 ∧
      (∀ r ∈ pd.action_delta.rows, r.length = 10) ∧
      pd.action_pos.rows =
        (((tGood.observations.map Observation.robot_state).map
          expandStateRow).drop 1).map extractPoseRow ∧
      pd.action_pos.rows.length = 1 ∧ pd.action_pos.cols = 9 ∧
      (∀ r ∈ pd.action_pos.rows, r.length = 9) ∧
      pd.color_image1 =
        (tGood.observations.map Observation.color_image1).dropLast ∧
      pd.color_image2 =
        (tGood.observations.map Observation.color_image2).dropLast ∧
      pd.color_image1.length = 1 ∧ pd.color_image2.length = 1 ∧
      (∀ i ∈ pd.color_image1, ImgShape 0 0 i) ∧
      (∀ i ∈ pd.color_image2, ImgShape 0 0 i)) :=
  ⟨by decide, by decide, by decide, by decide, by decide, by decide, by decide,
    claim_C3_decode_shapes (by decide) (by decide) (by decide) (by decide)
      (by decide) (by decide) (by decide) (by decide)⟩

theorem process_ok_raw_inv {path : List String} {nt : ℚ} {t : Trajectory}
    {pd : ProcessedData} (h : process_pickle_file path nt t = .ok pd) :
    "raw" ∈ path ∧
    pd.pickle_file =
      String.intercalate "/" (path.drop (path.indexOf "raw" + 1)) := by
  simp only [process_pickle_file] at h
  obtain ⟨raw, h1, h⟩ := except_bind_ok h
  obtain ⟨all, h2, h⟩ := except_bind_ok h
  obtain ⟨rawA, h3, h⟩ := except_bind_ok h
  obtain ⟨ad, h4, h⟩ := except_bind_ok h
  obtain ⟨ap, h5, h⟩ := except_bind_ok h
  split at h
  case isTrue hcond =>
    split at h
    case isFalse hnoraw => simp [Bind.bind, Except.bind] at h
    case isTrue hinraw =>
      obtain ⟨pf, h6, h⟩ := except_bind_ok h
      injection h with h
      subst h
      injection h6 with h6
      subst h6
      exact ⟨hinraw, rfl⟩
  case isFalse hcond => exact Except.noConfusion h

/-- Claim C10: for every decoded episode the `pickle_file` provenance
string is the path's components strictly after the first component equal to
`raw`, joined with `/`; a path with no `raw` component makes the decode of
that episode fail, and by fail-fast propagation the whole aggregation
produces no output. -/
theorem claim_C10_provenance :
    (∀ (path : List String) (nt : ℚ) (t : Trajectory) (pd : ProcessedData),
      process_pickle_file path nt t = .ok pd →
      "raw" ∈ path ∧
      pd.pickle_file =
        String.intercalate "/" (path.drop (path.indexOf "raw" + 1))) ∧
    (∀ (path : List String) (nt : ℚ) (t : Trajectory), "raw" ∉ path →
      ∀ pd, process_pickle_file path nt t ≠ .ok pd) ∧
    (∀ (inputs : List (List String × Trajectory)) (nt : ℚ) (k : ℕ),
      (∃ pt ∈ inputs, "raw" ∉ pt.1) →
      ∀ agg, parallel_process_pickle_files inputs nt k ≠ .ok agg) := by
  refine ⟨fun path nt t pd h => process_ok_raw_inv h, ?_, ?_⟩
  · intro path nt t hnr pd h
    exact hnr (process_ok_raw_inv h).1
  · intro inputs nt k hbad agg h
    obtain ⟨pt, hmem, hnr⟩ := hbad
    obtain ⟨results, hd, -⟩ := parallel_ok_inv h
    obtain ⟨r, hr⟩ := decodeAll_ok_forall hd pt hmem
    exact hnr (process_ok_raw_inv hr).1

unseal Rat.mul Rat.add Rat.sub in
/-- Witness for claim C10: `raw/scripted/demo.pkl` decodes with provenance
`scripted/demo.pkl`, while the raw-free path `data/demo.pkl` never decodes. -/
theorem claim_C10_witness :
    process_pickle_file pGood 0 tGood = .ok pdGood ∧
    ("raw" ∈ pGood ∧
      pdGood.pickle_file =
        String.intercalate "/" (pGood.drop (pGood.indexOf "raw" + 1))) ∧
    "raw" ∉ pNoRaw ∧
    (∀ pd, process_pickle_file pNoRaw 0 tGood ≠ .ok pd) :=
  ⟨by decide, claim_C10_provenance.1 pGood 0 tGood pdGood (by decide), by decide,
   claim_C10_provenance.2.1 pNoRaw 0 tGood (by decide)⟩

/-- Claim C4: a failing decode task fails the whole aggregation, surfacing
the originating error (with all earlier-completing tasks succeeding, the
aggregator returns exactly that error); no aggregated output exists when
any input fails to decode; and the main flow stops before the write phase,
returning the decode error instead of a store. -/
theorem claim_C4_fail_fast :
    (∀ (pre post : List (List String × Trajectory)) (p : List String)
        (t : Trajectory) (nt : ℚ) (k : ℕ) (e : String),
      (∀ pt ∈ pre, ∃ r, process_pickle_file pt.1 nt pt.2 = .ok r) →
      process_pickle_file p nt t = .error e →
      parallel_process_pickle_files (pre ++ (p, t) :: post) nt k = .error e) ∧
    (∀ (inputs : List (List String × Trajectory)) (nt : ℚ) (k : ℕ),
      (∃ pt ∈ inputs, ∀ r, process_pickle_file pt.1 nt pt.2 ≠ .ok r) →
      ∀ agg, parallel_process_pickle_files inputs nt k ≠ .ok agg) ∧
    (∀ (pre post : List (List String × Trajectory)) (p : List String)
        (t : Trajectory) (k : ℕ) (wOk : String → Bool) (now now2 : String)
        (e : String),
      (∀ pt ∈ pre, ∃ r, process_pickle_file pt.1 0 pt.2 = .ok r) →
      process_pickle_file p 0 t = .error e →
      main_run none true (pre ++ (p, t) :: post) k wOk now now2 = .error e) := by
  refine ⟨?_, ?_, ?_⟩
  · intro pre post p t nt k e hpre hfail
    simp [parallel_process_pickle_files, decodeAll_append_error hpre hfail,
      Bind.bind, Except.bind]
  · intro inputs nt k hbad agg h
    obtain ⟨pt, hmem, hner⟩ := hbad
    obtain ⟨results, hd, -⟩ := parallel_ok_inv h
    obtain ⟨r, hr⟩ := decodeAll_ok_forall hd pt hmem
    exact hner r hr
  · intro pre post p t k wOk now now2 e hpre hfail
    simp [main_run, parallel_process_pickle_files,
      decodeAll_append_error hpre hfail, Bind.bind, Except.bind]

unseal Rat.mul Rat.add Rat.sub in
/-- Witness for claim C4: with the well-formed episode completing first and
an episode carrying 7-wide actions failing, the aggregator surfaces the
shape-mismatch error. -/
theorem claim_C4_witness :
    (∀ pt ∈ [(pGood, tGood)], ∃ r, process_pickle_file pt.1 0 pt.2 = .ok r) ∧
    process_pickle_file pGood 0 tBadAction = .error ("Action must be 8D") ∧
    parallel_process_pickle_files [(pGood, tGood), (pGood, tBadAction)] 0 2 =
      .error ("Action must be 8D") := by
  have hpre : ∀ pt ∈ [(pGood, tGood)],
      ∃ r, process_pickle_file pt.1 0 pt.2 = .ok r := by
    intro pt hpt
    rw [List.mem_singleton.mp hpt]
    exact ⟨pdGood, by decide⟩
  exact ⟨hpre, by decide,
    claim_C4_fail_fast.1 [(pGood, tGood)] [] pGood tBadAction 0 2
      ("Action must be 8D") hpre (by decide)⟩

/-- Claim C5: with a store already present at the output path and no
overwrite flag, the run fails with the already-exists error regardless of
the inputs (so before any episode processing or store creation); with the
flag set, the run proceeds and its result is independent of the prior
contents, which are fully replaced by a freshly created store. -/
theorem claim_C5_overwrite_guard :
    (∀ (z : ZStore) (inputs : List (List String × Trajectory)) (k : ℕ)
        (wOk : String → Bool) (now now2 : String),
      main_run (some z) false inputs k wOk now now2 =
        .error ("Output path already exists. Use --overwrite to overwrite.")) ∧
    (∀ (z : ZStore) (inputs : List (List String × Trajectory)) (k : ℕ)
        (wOk : String → Bool) (now now2 : String),
      main_run (some z) true inputs k wOk now now2 =
        main_run none true inputs k wOk now now2) := by
  constructor
  · intro z inputs k wOk now now2
    simp [main_run]
  · intro z inputs k wOk now now2
    simp [main_run]

unseal Rat.mul Rat.add Rat.sub in
/-- Claim C1 (code bug): the decoder's length check covers only
`robot_state` against `action/delta`; an episode whose reward list has
three entries but a single action step decodes successfully with channel
lengths that disagree, instead of raising the length-mismatch error that
the specification (and the source's own sanity-check comment) requires for
every per-timestep channel. -/
theorem claim_C1_reward_length_unchecked :
    process_pickle_file pGood 0 tBadReward = .ok pdBadReward ∧
    pdBadReward.robot_state.rows.length = 1 ∧
    pdBadReward.action_delta.rows.length = 1 ∧
    pdBadReward.action_pos.rows.length = 1 ∧
    pdBadReward.skill.length = 1 ∧
    pdBadReward.reward.length = 3 := by decide

unseal Rat.mul Rat.add Rat.sub in
/-- Counterexample to claim C2 as stated: aggregating the single decoded
episode of `tBadReward` succeeds with `episode_ends = [1]`, whose final
value 1 differs from the total length 3 of the concatenated per-timestep
`reward` channel — the final value does not equal the total length of
every per-timestep channel. -/
theorem claim_C2_counterexample :
    parallel_process_pickle_files [(pGood, tBadReward)] 0 1 = .ok aggBadReward ∧
    aggBadReward.episode_ends = [1] ∧
    aggBadReward.reward.length = 3 := by decide

/-- Claim C2 (amended): for any aggregation that succeeds, `episode_ends`
is strictly increasing, its `i`-th entry is the sum of the first `i+1`
folded episode lengths (hence consecutive differences equal the episode
lengths and the first entry equals the first episode's length), its final
value equals the total concatenated length of the robot-state, image and
action channels — the reward and skill channels are not length-checked by
the decoder and may differ — and the per-episode channels `furniture`,
`success` and `pickle_file` carry exactly one entry per processed episode
in the same completion order as `episode_ends`. -/
theorem claim_C2_episode_ends {inputs : List (List String × Trajectory)}
    {nt : ℚ} {k : ℕ} {agg : AggregatedData}
    (h : parallel_process_pickle_files inputs nt k = .ok agg) :
    ∃ results, decodeAll inputs nt = .ok results ∧
      results.length = inputs.length ∧
      agg.episode_ends = scanSums (results.map ProcessedData.episode_length) ∧
      agg.episode_ends.length = inputs.length ∧
      List.Chain' (· < ·) agg.episode_ends ∧
      (∀ i, i < agg.episode_ends.length →
        agg.episode_ends.getD i 0 =
          ((results.map ProcessedData.episode_length).take (i + 1)).sum) ∧
      agg.episode_ends.getLastD 0 = agg.robot_state.rows.length ∧
      agg.episode_ends.getLastD 0 = agg.color_image1.length ∧
      agg.episode_ends.getLastD 0 = agg.color_image2.length ∧
      agg.episode_ends.getLastD 0 = agg.action_delta.rows.length ∧
      agg.episode_ends.getLastD 0 = agg.action_pos.rows.length ∧
      agg.furniture = results.map ProcessedData.furniture ∧
      agg.success = results.map ProcessedData.success ∧
      agg.pickle_file = results.map ProcessedData.pickle_file ∧
      agg.furniture.length = inputs.length ∧
      agg.success.length = inputs.length ∧
      agg.pickle_file.length = inputs.length := by
  obtain ⟨results, hd, hagg⟩ := parallel_ok_inv h
  obtain ⟨e1, e2, e3, e4, e5, e6, e7, ee, ef, es, ep, hrne⟩ := aggregate_ok_inv hagg
  have hlen := decodeAll_ok_length hd
  have hfacts : ∀ r ∈ results,
      r.robot_state.rows.length = r.episode_length ∧
      r.action_delta.rows.length = r.episode_length ∧
      r.action_pos.rows.length = r.episode_length ∧
      r.color_image1.length = r.episode_length ∧
      r.color_image2.length = r.episode_length ∧
      1 ≤ r.episode_length := by
    intro r hr
    obtain ⟨p, t, hpt⟩ := decodeAll_ok_mem hd r hr
    exact process_ok_facts hpt
  have hpos : ∀ x ∈ results.map ProcessedData.episode_length, 1 ≤ x := by
    intro x hx
    obtain ⟨r, hr, rfl⟩ := List.mem_map.mp hx
    exact (hfacts r hr).2.2.2.2.2
  have hlensne : results.map ProcessedData.episode_length ≠ [] := by
    simpa using hrne
  have hee : agg.episode_ends =
      scanSums (results.map ProcessedData.episode_length) := by
    rw [ee, buildEnds_eq]
  have hsum : (scanSums (results.map ProcessedData.episode_length)).getLastD 0 =
      (results.map ProcessedData.episode_length).sum :=
    scanSums_getLastD hlensne
  have hsum_rs : ((results.map ProcessedData.robot_state).map
      NpArray2.rows).map List.length = results.map ProcessedData.episode_length := by
    simp only [List.map_map]
    apply List.map_congr_left
    intro r hr
    exact (hfacts r hr).1
  have hsum_ci1 : (results.map ProcessedData.color_image1).map List.length =
      results.map ProcessedData.episode_length := by
    simp only [List.map_map]
    apply List.map_congr_left
    intro r hr
    exact (hfacts r hr).2.2.2.1
  have hsum_ci2 : (results.map ProcessedData.color_image2).map List.length =
      results.map ProcessedData.episode_length := by
    simp only [List.map_map]
    apply List.map_congr_left
    intro r hr
    exact (hfacts r hr).2.2.2.2.1
  have hsum_ad : ((results.map ProcessedData.action_delta).map
      NpArray2.rows).map List.length = results.map ProcessedData.episode_length := by
    simp only [List.map_map]
    apply List.map_congr_left
    intro r hr
    exact (hfacts r hr).2.1
  have hsum_ap : ((results.map ProcessedData.action_pos).map
      NpArray2.rows).map List.length = results.map ProcessedData.episode_length := by
    simp only [List.map_map]
    apply List.map_congr_left
    intro r hr
    exact (hfacts r hr).2.2.1
  refine ⟨results, hd, hlen, hee, ?_, ?_, ?_, ?_, ?_, ?_, ?_, ?_, ef, es, ep,
    ?_, ?_, ?_⟩
  · rw [hee, scanSums_length, List.length_map, hlen]
  · rw [hee]
    exact scanSums_chain hpos
  · intro i hi
    rw [hee] at hi ⊢
    rw [scanSums_length] at hi
    exact scanSums_getD hi
  · rw [hee, hsum, e1, List.length_flatten, hsum_rs]
  · rw [hee, hsum, e2, List.length_flatten, hsum_ci1]
  · rw [hee, hsum, e3, List.length_flatten, hsum_ci2]
  · rw [hee, hsum, e4, List.length_flatten, hsum_ad]
  · rw [hee, hsum, e5, List.length_flatten, hsum_ap]
  · rw [ef, List.length_map, hlen]
  · rw [es, List.length_map, hlen]
  · rw [ep, List.length_map, hlen]

unseal Rat.mul Rat.add Rat.sub in
/-- Witness for claim C2 (amended) at the single well-formed episode
`tGood`: its aggregation succeeds and the theorem applies. -/
theorem claim_C2_witness :
    parallel_process_pickle_files [(pGood, tGood)] 0 1 = .ok aggGood ∧
    List.Chain' (· < ·) aggGood.episode_ends ∧
    aggGood.episode_ends.getLastD 0 = aggGood.robot_state.rows.length := by
  have h : parallel_process_pickle_files [(pGood, tGood)] 0 1 = .ok aggGood := by
    decide
  obtain ⟨results, -, -, -, -, hchain, -, hlast, -⟩ := claim_C2_episode_ends h
  exact ⟨h, hchain, hlast⟩

/-- Claim C8: every channel of the store is created with its declared full
final shape and is chunked along the leading dimension only, with chunk
shape `chunksize` followed by the channel's unchanged trailing dimensions;
the Blosc zstd level-9 bit-shuffle compressor is attached exactly when the
channel name contains `color_image`, which for the pipeline's channel list
means exactly the two image channels; all other channels keep the default
(absent) compressor. -/
theorem claim_C8_store_layout :
    (∀ (shapes : List (String × List ℕ × Dtype)) (c : ℕ) (now : String),
      (initialize_zarr_store shapes c now).datasets.map
        (fun d => (d.name, d.shape, d.dtype)) = shapes) ∧
    (∀ (shapes : List (String × List ℕ × Dtype)) (c : ℕ) (now : String),
      ∀ d ∈ (initialize_zarr_store shapes c now).datasets,
        d.chunks = c :: d.shape.tail ∧
        d.compressor = (if strContains d.name "color_image" then
          some imageCompressor else none)) ∧
    (∀ (agg : AggregatedData) (c : ℕ) (now : String),
      ∀ d ∈ (initialize_zarr_store (full_data_shapes agg) c now).datasets,
        (d.compressor = some imageCompressor ↔
          (d.name = "color_image1" ∨ d.name = "color_image2")) ∧
        (d.compressor = none ↔
          ¬(d.name = "color_image1" ∨ d.name = "color_image2"))) := by
  refine ⟨?_, ?_, ?_⟩
  · intro shapes c now
    induction shapes with
    | nil => rfl
    | cons s rest ih =>
      simp only [initialize_zarr_store, List.map_cons] at ih ⊢
      rw [ih]
  · intro shapes c now d hd
    simp only [initialize_zarr_store, List.mem_map] at hd
    obtain ⟨s, hs, rfl⟩ := hd
    exact ⟨rfl, rfl⟩
  · intro agg c now d hd
    simp only [initialize_zarr_store, full_data_shapes, List.map_cons,
      List.map_nil, List.mem_cons, List.not_mem_nil, or_false] at hd
    rcases hd with rfl | rfl | rfl | rfl | rfl | rfl | rfl | rfl | rfl | rfl | rfl <;>
      exact ⟨by simp +decide, by simp +decide⟩

/-- Witness for claim C8 at the aggregation `aggGood` with chunk size 4:
the `color_image1` dataset is present and carries the compressor. -/
theorem claim_C8_witness :
    dsColorImage1 ∈
      (initialize_zarr_store (full_data_shapes aggGood) 4 "t").datasets ∧
    (dsColorImage1.compressor = some imageCompressor ↔
      (dsColorImage1.name = "color_image1" ∨
        dsColorImage1.name = "color_image2")) ∧
    (dsColorImage1.compressor = none ↔
      ¬(dsColorImage1.name = "color_image1" ∨
        dsColorImage1.name = "color_image2")) :=
  ⟨by decide, claim_C8_store_layout.2.2 aggGood 4 "t" dsColorImage1 (by decide)⟩

/-- Claim C9: store creation attaches exactly the creation timestamp and
marks no channel as written; a run of the write loop that fails on some
channel leaves a store whose attributes still lack `time_finished` (and
keep `time_created`); and a run that completes appends exactly the
completion timestamp, the filtering threshold and the chunk size after
every named channel has been written. -/
theorem claim_C9_metadata_order :
    (∀ (shapes : List (String × List ℕ × Dtype)) (c : ℕ) (now : String),
      (initialize_zarr_store shapes c now).attrs = [("time_created", now)] ∧
      ∀ d ∈ (initialize_zarr_store shapes c now).datasets,
        d.written = false) ∧
    (∀ (shapes : List (String × List ℕ × Dtype)) (c : ℕ) (now : String)
        (names : List String) (wOk : String → Bool) (now2 : String)
        (nt : ℚ) (cs : ℕ) (n : String) (z' : ZStore),
      writeLoopAndFinish (initialize_zarr_store shapes c now) names wOk now2
          nt cs = .error (n, z') →
      z'.attrs.lookup "time_finished" = none ∧
      z'.attrs.lookup "time_created" = some now) ∧
    (∀ (z : ZStore) (names : List String) (wOk : String → Bool)
        (now2 : String) (nt : ℚ) (cs : ℕ) (z2 : ZStore),
      writeLoopAndFinish z names wOk now2 nt cs = .ok z2 →
      z2.attrs = z.attrs ++
        [("time_finished", now2), ("noop_threshold", toString nt),
         ("chunksize", toString cs)] ∧
      ∀ nm ∈ names, ∀ d ∈ z2.datasets, d.name = nm → d.written = true) := by
  refine ⟨?_, ?_, ?_⟩
  · intro shapes c now
    refine ⟨rfl, ?_⟩
    intro d hd
    simp only [initialize_zarr_store, List.mem_map] at hd
    obtain ⟨s, hs, rfl⟩ := hd
    rfl
  · intro shapes c now names wOk now2 nt cs n z' h
    have hattrs := writeLoop_error_attrs h
    rw [hattrs]
    exact ⟨rfl, rfl⟩
  · intro z names wOk now2 nt cs z2 h
    exact ⟨writeLoop_ok_attrs h, writeLoop_ok_written h⟩

/-- Witness for claim C9: a single-channel store whose only write fails
surfaces the failing channel and a store still lacking `time_finished`. -/
theorem claim_C9_witness :
    writeLoopAndFinish (initialize_zarr_store [("a", [2], Dtype.float32)] 5 "t")
        ["a"] (fun _ => false) "u" 0 5 =
      .error ("a", initialize_zarr_store [("a", [2], Dtype.float32)] 5 "t") ∧
    ((initialize_zarr_store [("a", [2], Dtype.float32)] 5 "t").attrs.lookup
        "time_finished" = none ∧
      (initialize_zarr_store [("a", [2], Dtype.float32)] 5 "t").attrs.lookup
        "time_created" = some "t") :=
  ⟨by decide,
   claim_C9_metadata_order.2.1 [("a", [2], Dtype.float32)] 5 "t" ["a"]
     (fun _ => false) "u" 0 5 "a"
     (initialize_zarr_store [("a", [2], Dtype.float32)] 5 "t") (by decide)⟩
